import Mathlib

/-!
Verification of the portview discovery-and-reconciliation pipeline.

This file gives a shallow embedding of the core of the portview repository
(listing parsers, scanner port-range filter, health prober, reconciler and
the interactive state machine) and proves, or refutes, the frozen claims
about it.  Go machine integers are modelled as Int (Go int is 64-bit on the
target platforms; the strconv parse functions enforce the int64 bounds
exactly where the source does).  Go slices are Lean lists; a nil slice
returned by the parsers is distinguished from an empty one by using Option.
External effects (exec, network dialing, disk persistence) appear as
explicit command values or oracle parameters, never as hidden state.
-/

namespace Portview

/-! ## Go string primitives

Faithful models of the pieces of the Go standard library the source uses:
strings.Fields, strings.TrimSpace, strings.Split, strings.ToLower,
strings.Contains, strings.LastIndex (specialised to colon suffixes),
strconv.Atoi and strconv.ParseInt.  Whitespace is the Latin-1 part of
unicode.IsSpace, and ToLower is the ASCII case map; the inputs the claims
range over stay within these. -/

/-- Predicate for whitespace as unicode.IsSpace treats Latin-1 characters. -/
def isGoSpace (c : Char) : Bool :=
  c = ' ' || c = '\t' || c = '\n' || c = '\x0b' || c = '\x0c' || c = '\r' ||
  c = '\x85' || c = '\xa0'

/-- Model of strings.TrimSpace: drop leading and trailing whitespace. -/
def goTrimSpace (s : String) : String :=
  String.mk (((s.data.dropWhile isGoSpace).reverse.dropWhile isGoSpace).reverse)

/-- Split a character list at every character satisfying the predicate,
keeping empty pieces, with an accumulator for the current piece. -/
def splitPredAux (p : Char → Bool) : List Char → List Char → List (List Char)
  | [], cur => [cur.reverse]
  | c :: rest, cur =>
    if p c then cur.reverse :: splitPredAux p rest []
    else splitPredAux p rest (c :: cur)

/-- Split a string at every character satisfying the predicate, keeping
empty pieces. -/
def goSplitPred (p : Char → Bool) (s : String) : List String :=
  (splitPredAux p s.data []).map String.mk

/-- Model of strings.Split with a one-character separator, the only form
the source uses (newline and colon). -/
def goSplitOnChar (sep : Char) (s : String) : List String :=
  goSplitPred (fun c => c = sep) s

/-- Model of strings.Fields: maximal runs of non-whitespace characters. -/
def goFields (s : String) : List String :=
  (goSplitPred isGoSpace s).filter (fun t => t ≠ "")

/-- Value of one digit character as strconv understands it, any base. -/
def goDigitVal (c : Char) : Option Nat :=
  if '0' ≤ c ∧ c ≤ '9' then some (c.toNat - '0'.toNat)
  else if 'a' ≤ c ∧ c ≤ 'z' then some (c.toNat - 'a'.toNat + 10)
  else if 'A' ≤ c ∧ c ≤ 'Z' then some (c.toNat - 'A'.toNat + 10)
  else none

/-- Accumulate digit values in the given base; fails on an invalid digit. -/
def goDigitsVal (base : Nat) (acc : Nat) : List Char → Option Nat
  | [] => some acc
  | c :: rest =>
    match goDigitVal c with
    | some d => if d < base then goDigitsVal base (acc * base + d) rest else none
    | none => none

/-- Largest int64 value, the positive bound strconv.ParseInt enforces. -/
def int64Max : Nat := 9223372036854775807

/-- Absolute value of the smallest int64, the negative bound of ParseInt. -/
def int64MinAbs : Nat := 9223372036854775808

/-- Model of strconv.ParseInt with an explicit base and bitSize 64: optional
sign, then at least one digit of the base, int64 range enforced. -/
def goParseInt (s : String) (base : Nat) : Option Int :=
  match s.data with
  | [] => none
  | c :: rest =>
    let signDigits : Bool × List Char :=
      if c = '-' then (true, rest)
      else if c = '+' then (false, rest)
      else (false, c :: rest)
    match signDigits with
    | (neg, digits) =>
      match digits with
      | [] => none
      | _ :: _ =>
        match goDigitsVal base 0 digits with
        | none => none
        | some n =>
          if neg then
            if n ≤ int64MinAbs then some (-(n : Int)) else none
          else
            if n ≤ int64Max then some (n : Int) else none

/-- Model of strconv.Atoi: ParseInt in base 10. -/
def goAtoi (s : String) : Option Int := goParseInt s 10

/-- ASCII lower-casing of one character, as strings.ToLower acts on ASCII. -/
def goToLowerChar (c : Char) : Char :=
  if 'A' ≤ c ∧ c ≤ 'Z' then Char.ofNat (c.toNat + 32) else c

/-- Model of strings.ToLower restricted to the ASCII case map. -/
def goToLower (s : String) : String := s.map goToLowerChar

/-- Check that the first list occurs at the very start of the second. -/
def matchesAt : List Char → List Char → Bool
  | [], _ => true
  | _ :: _, [] => false
  | c :: cs, h :: hs => (c = h) && matchesAt cs hs

/-- Check that the needle occurs somewhere in the haystack. -/
def containsAux : List Char → List Char → Bool
  | [], sub => matchesAt sub []
  | c :: rest, sub => matchesAt sub (c :: rest) || containsAux rest sub

/-- Model of strings.Contains. -/
def goContains (hay sub : String) : Bool := containsAux hay.data sub.data

/-- Suffix of a string after its last colon, none when it has no colon.
This is how the source uses strings.LastIndex on host:port tokens. -/
def lastColonSuffix (s : String) : Option String :=
  let parts := goSplitOnChar ':' s
  if parts.length ≤ 1 then none else some (parts.getLastD "")

/-! ## Data model

Server is the sole domain entity (package scanner); PortRange and Config
come from package config.  The Go label map is modelled as an association
list with unique keys kept unique by its update operation, and the hidden
port set as the plain list the source stores. -/

/-- One discovered listening TCP endpoint plus resolved metadata. -/
structure Server where
  port : Int
  pid : Int
  process : String
  command : String
  state : String
  label : String
  healthy : Bool
deriving DecidableEq, Repr, Inhabited

/-- Inclusive min and max ports to scan; package config. -/
structure PortRange where
  min : Int
  max : Int
deriving DecidableEq, Repr, Inhabited

/-- Full portview configuration; the refresh interval is opaque data here. -/
structure Config where
  refreshInterval : Int
  portRange : PortRange
  labels : List (Int × String)
  hidden : List Int
deriving DecidableEq, Repr, Inhabited

/-- Read a key from the label map, as a Go two-valued map read. -/
def lookupLabel : List (Int × String) → Int → Option String
  | [], _ => none
  | (k, v) :: rest, port => if k = port then some v else lookupLabel rest port

/-- Write a key into the label map, replacing an existing binding. -/
def setAssoc : List (Int × String) → Int → String → List (Int × String)
  | [], port, label => [(port, label)]
  | (k, v) :: rest, port, label =>
    if k = port then (port, label) :: rest else (k, v) :: setAssoc rest port label

/-- Delete a key from the label map. -/
def eraseAssoc : List (Int × String) → Int → List (Int × String)
  | [], _ => []
  | (k, v) :: rest, port =>
    if k = port then eraseAssoc rest port else (k, v) :: eraseAssoc rest port

/-- Model of Config.SetLabel. -/
def Config.SetLabel (c : Config) (port : Int) (label : String) : Config :=
  { c with labels := setAssoc c.labels port label }

/-- Model of Config.RemoveLabel. -/
def Config.RemoveLabel (c : Config) (port : Int) : Config :=
  { c with labels := eraseAssoc c.labels port }

/-- Linear membership scan of the hidden list, as the Go loop runs it. -/
def isHiddenList : List Int → Int → Bool
  | [], _ => false
  | p :: rest, port => if p = port then true else isHiddenList rest port

/-- Model of Config.IsHidden. -/
def Config.IsHidden (c : Config) (port : Int) : Bool := isHiddenList c.hidden port

/-- Remove the first occurrence of the port, or append it at the end when
absent, exactly as the Go loop in Config.ToggleHidden does. -/
def toggleHiddenList : List Int → Int → List Int
  | [], port => [port]
  | p :: rest, port => if p = port then rest else p :: toggleHiddenList rest port

/-- Model of Config.ToggleHidden. -/
def Config.ToggleHidden (c : Config) (port : Int) : Config :=
  { c with hidden := toggleHiddenList c.hidden port }

/-- Model of Config.InPortRange, inclusive on both ends. -/
def Config.InPortRange (c : Config) (port : Int) : Bool :=
  decide (c.portRange.min ≤ port) && decide (port ≤ c.portRange.max)

/-! ## Listing parsers (package scanner)

parseLsofOutput and parseProcNetTCP, translated line for line.  The Go
functions return a nil slice for the no-result outcome, modelled by none;
they never return some of an empty list. -/

/-- Body of the parseLsofOutput loop for a single data line, with the
guards in source order: field count, PID parse, LISTEN marker, last-colon
split of the name field, port parse. -/
def lsofLine (line : String) : Option Server :=
  if (goFields line).length < 10 then none
  else
    match goAtoi ((goFields line).getD 1 "") with
    | none => none
    | some pid =>
      if (goFields line).getLastD "" ≠ "(LISTEN)" then none
      else
        match lastColonSuffix
            ((goFields line).getD ((goFields line).length - 2) "") with
        | none => none
        | some portStr =>
          match goAtoi portStr with
          | none => none
          | some port =>
            some { port := port, pid := pid,
                   process := (goFields line).getD 0 "", command := "",
                   state := "LISTEN", label := "", healthy := false }

/-- Append the parse result of one line to the accumulator, as the Go loops
grow their servers slice. -/
def appendIfSome (f : String → Option Server) (acc : List Server)
    (line : String) : List Server :=
  match f line with
  | some s => acc ++ [s]
  | none => acc

/-- Model of parseLsofOutput: trim, split lines, skip the header, fold the
line parser, and return nil (none) when nothing matched. -/
def parseLsofOutput (output : String) : Option (List Server) :=
  let trimmed := goTrimSpace output
  if trimmed = "" then none
  else
    let lines := goSplitOnChar '\n' trimmed
    if lines.length ≤ 1 then none
    else
      let servers := (lines.drop 1).foldl (appendIfSome lsofLine) []
      if servers.length = 0 then none else some servers

/-- Body of the parseProcNetTCP loop for a single record: field count,
state code 0A, colon split of the local address into exactly two parts,
base-16 port parse. -/
def procNetLine (line : String) : Option Server :=
  if (goFields line).length < 4 then none
  else if (goFields line).getD 3 "" ≠ "0A" then none
  else
    if (goSplitOnChar ':' ((goFields line).getD 1 "")).length ≠ 2 then none
    else
      match goParseInt ((goSplitOnChar ':' ((goFields line).getD 1 "")).getD 1 "") 16 with
      | none => none
      | some port =>
        some { port := port, pid := 0, process := "", command := "",
               state := "LISTEN", label := "", healthy := false }

/-- Model of parseProcNetTCP: trim, split lines, skip the header, fold the
record parser, and return nil (none) when nothing matched. -/
def parseProcNetTCP (content : String) : Option (List Server) :=
  let lines := goSplitOnChar '\n' (goTrimSpace content)
  if lines.length ≤ 1 then none
  else
    let servers := (lines.drop 1).foldl (appendIfSome procNetLine) []
    if servers.length = 0 then none else some servers

/-! ## Scanner port-range filter

The range filter the two Scan variants apply per entity (scanner_darwin.go
second revision and the linux Scan), translated with the nested ifs of the
source.  The per-PID resolution step that precedes it only rewrites the
process and command strings via external exec and never touches the port,
so the filter is stated on the resolved entities directly. -/

/-- Keep decision of the Scan loop: when at least one bound is nonzero,
drop entities whose port lies outside the closed interval. -/
def scanKeep (pr : PortRange) (port : Int) : Bool :=
  if pr.min ≠ 0 || pr.max ≠ 0 then
    if port < pr.min || port > pr.max then false else true
  else true

/-- Append loop of Scan restricted to its range-filter effect. -/
def scanRangeFilter (pr : PortRange) (servers : List Server) : List Server :=
  servers.foldl (fun acc s => if scanKeep pr s.port then acc ++ [s] else acc) []

/-! ## Health prober

CheckHealth copies the slice and each probe goroutine sets healthy to true
on a successful dial, leaving the copied value alone otherwise.  The dial
outcome (bounded by the timeout) is an oracle parameter; the index-disjoint
concurrent writes collapse to a map over the copy. -/

/-- Model of CheckHealth with the dial outcome as an oracle. -/
def CheckHealth (servers : List Server) (probe : Int → Bool) : List Server :=
  servers.map (fun s => if probe s.port then { s with healthy := true } else s)

/-! ## Claim-side twin definitions

Definitions below follow the words of the spec sentences the claims quote,
to be compared with the source translations above. -/

/-- Twin of the lsof line contract as the spec words it: at least ten
fields, an integer second field, the literal LISTEN marker last, and an
integer suffix after the last colon of the second-to-last field. -/
def lsofSpecLine (line : String) : Option Server :=
  match goAtoi ((goFields line).getD 1 ""),
        (lastColonSuffix
          ((goFields line).getD ((goFields line).length - 2) "")).bind goAtoi with
  | some pid, some port =>
    if (goFields line).length ≥ 10 ∧ (goFields line).getLastD "" = "(LISTEN)" then
      some { port := port, pid := pid, process := (goFields line).getD 0 "",
             command := "", state := "LISTEN", label := "", healthy := false }
    else none
  | _, _ => none

/-- Twin of the process-listing parser contract: one Server per valid
non-header line, no result at all when zero lines match. -/
def lsofSpec (output : String) : Option (List Server) :=
  let dataLines := (goSplitOnChar '\n' (goTrimSpace output)).drop 1
  let r := dataLines.filterMap lsofSpecLine
  if r = [] then none else some r

/-- Twin of the kernel-table record contract as the spec words it: at
least four fields, state code 0A at index three, and the port read in base
16 from the text after the colon of field index one. -/
def procNetSpecLine (line : String) : Option Server :=
  match goSplitOnChar ':' ((goFields line).getD 1 "") with
  | [_, portHex] =>
    match goParseInt portHex 16 with
    | some port =>
      if (goFields line).length ≥ 4 ∧ (goFields line).getD 3 "" = "0A" then
        some { port := port, pid := 0, process := "", command := "",
               state := "LISTEN", label := "", healthy := false }
      else none
    | none => none
  | _ => none

/-- Twin of the kernel-table parser contract. -/
def procNetSpec (content : String) : Option (List Server) :=
  let dataLines := (goSplitOnChar '\n' (goTrimSpace content)).drop 1
  let r := dataLines.filterMap procNetSpecLine
  if r = [] then none else some r

/-- Keep predicate the amended range-filter claim describes: everything
when both bounds are zero, otherwise the closed interval. -/
def rangeSpecKeep (pr : PortRange) (port : Int) : Bool :=
  (pr.min == 0 && pr.max == 0) ||
  (decide (pr.min ≤ port) && decide (port ≤ pr.max))

/-! ## Interaction state machine (package tui)

The Bubble Tea model, messages and commands.  A command value records the
side effect the handler requests; the event loop executing it is external.
The text-input component is external (charmbracelet bubbles); its value is
modelled as the string it holds, with the delegated editing keys applying
the obvious edits under the CharLimit of 30 set in New.  The wall-clock
lastRefresh field is display-only and omitted. -/

/-- Interaction modes, in the order of the Go iota block. -/
inductive Mode where
  | normal
  | filter
  | label
  | confirmKill
  | help
deriving DecidableEq, Repr, Inhabited

/-- Kind of a key event as the bubbletea type switches observe it. -/
inductive KeyType where
  | esc
  | enter
  | backspace
  | runes
  | other
deriving DecidableEq, Repr, Inhabited

/-- Key event: the type for the type switches, and the string form the
binding matcher compares against the configured key lists. -/
structure KeyMsg where
  type : KeyType
  str : String
deriving DecidableEq, Repr, Inhabited

/-- Enter key event. -/
def enterKey : KeyMsg := { type := KeyType.enter, str := "enter" }

/-- Escape key event. -/
def escKey : KeyMsg := { type := KeyType.esc, str := "esc" }

/-- Character key event. -/
def runeKey (s : String) : KeyMsg := { type := KeyType.runes, str := s }

/-- Key lists of the keyMap bindings in keys.go. -/
def upKeys : List String := ["up", "k"]

/-- Down binding keys. -/
def downKeys : List String := ["down", "j"]

/-- Open binding keys. -/
def openKeys : List String := ["o", "enter"]

/-- Kill binding keys. -/
def killKeys : List String := ["x"]

/-- Label binding keys. -/
def labelKeys : List String := ["l"]

/-- Refresh binding keys. -/
def refreshKeys : List String := ["r"]

/-- Filter binding keys. -/
def filterKeys : List String := ["/"]

/-- Help binding keys. -/
def helpKeys : List String := ["?"]

/-- Quit binding keys. -/
def quitKeys : List String := ["q", "ctrl+c"]

/-- Confirm binding keys. -/
def confirmKeys : List String := ["y"]

/-- Cancel binding keys. -/
def cancelKeys : List String := ["n", "esc"]

/-- Model of key.Matches: the string form of the key is in the binding. -/
def kmatches (k : KeyMsg) (binding : List String) : Bool :=
  binding.contains k.str

/-- Side-effecting command a handler returns to the event loop. -/
inductive Cmd where
  | none
  | quit
  | scan
  | tick (interval : Int)
  | kill (pid : Int)
  | openURL (port : Int)
  | saveConfig (path : String) (cfg : Config)
  | batch (first second : Cmd)
deriving DecidableEq, Repr, Inhabited

/-- Messages the Update loop processes. -/
inductive Msg where
  | windowSize (width height : Int)
  | scanResult (servers : List Server) (err : Option String)
  | tick
  | killResult (pid : Int) (err : Option String)
  | labelSaved (err : Option String)
  | key (k : KeyMsg)
deriving DecidableEq, Repr, Inhabited

/-- The Bubble Tea model state; the injected scanner collaborator and the
wall-clock lastRefresh timestamp are external and carry no machine state
the claims touch. -/
structure Model where
  servers : List Server
  filtered : List Server
  cursor : Int
  mode : Mode
  config : Config
  configPath : String
  width : Int
  height : Int
  filterText : String
  labelInput : String
  labelFocused : Bool
  err : Option String
deriving DecidableEq, Repr, Inhabited

/-- Model of New: Go zero values everywhere except the injected config. -/
def Model.new (cfg : Config) (cfgPath : String) : Model :=
  { servers := [], filtered := [], cursor := 0, mode := Mode.normal,
    config := cfg, configPath := cfgPath, width := 0, height := 0,
    filterText := "", labelInput := "", labelFocused := false, err := none }

/-- Per-entity match of applyFilter: case-folded containment in process or
label, raw containment in the decimal port text. -/
def visibleMatch (ft : String) (s : Server) : Bool :=
  let lower := goToLower ft
  goContains (goToLower s.process) lower ||
  goContains (goToLower s.label) lower ||
  goContains (toString s.port) ft

/-- Model of applyFilter: rebuild the visible set from the held servers
(copy on empty filter text, append loop otherwise) and clamp the cursor. -/
def Model.applyFilter (m : Model) : Model :=
  let filtered :=
    if m.filterText = "" then m.servers
    else m.servers.foldl
      (fun acc s => if visibleMatch m.filterText s then acc ++ [s] else acc) []
  let cursor :=
    if filtered.length = 0 then 0
    else if (filtered.length : Int) ≤ m.cursor then (filtered.length : Int) - 1
    else m.cursor
  { m with filtered := filtered, cursor := cursor }

/-- Model of mergeLabels: overwrite the label of every held server that
has a stored label keyed by its port. -/
def Model.mergeLabels (m : Model) : Model :=
  { m with servers := m.servers.map (fun s =>
      match lookupLabel m.config.labels s.port with
      | some label => { s with label := label }
      | none => s) }

/-- Model of filterHidden: drop held servers on hidden ports, in an
order-preserving append loop. -/
def Model.filterHidden (m : Model) : Model :=
  { m with servers := m.servers.foldl (fun acc s =>
      if m.config.IsHidden s.port then acc else acc ++ [s]) [] }

/-- Model of handleNormalKey, with the switch cases in source order. -/
def Model.handleNormalKey (m : Model) (k : KeyMsg) : Model × Cmd :=
  if kmatches k quitKeys then (m, Cmd.quit)
  else if kmatches k downKeys then
    (if 0 < m.filtered.length ∧ m.cursor < (m.filtered.length : Int) - 1 then
       { m with cursor := m.cursor + 1 }
     else m, Cmd.none)
  else if kmatches k upKeys then
    (if 0 < m.cursor then { m with cursor := m.cursor - 1 } else m, Cmd.none)
  else if kmatches k filterKeys then ({ m with mode := Mode.filter }, Cmd.none)
  else if kmatches k killKeys then
    if m.filtered.length = 0 then (m, Cmd.none)
    else ({ m with mode := Mode.confirmKill }, Cmd.none)
  else if kmatches k labelKeys then
    if m.filtered.length = 0 then (m, Cmd.none)
    else
      let s := m.filtered.getD m.cursor.toNat default
      let existing := (lookupLabel m.config.labels s.port).getD ""
      ({ m with mode := Mode.label, labelInput := existing.take 30,
                labelFocused := true }, Cmd.none)
  else if kmatches k helpKeys then ({ m with mode := Mode.help }, Cmd.none)
  else if kmatches k openKeys then
    if m.filtered.length = 0 then (m, Cmd.none)
    else (m, Cmd.openURL (m.filtered.getD m.cursor.toNat default).port)
  else if kmatches k refreshKeys then (m, Cmd.scan)
  else (m, Cmd.none)

/-- Model of handleFilterKey, a type switch on the key event. -/
def Model.handleFilterKey (m : Model) (k : KeyMsg) : Model × Cmd :=
  match k.type with
  | KeyType.esc => ({ m with mode := Mode.normal }, Cmd.none)
  | KeyType.enter => ({ m with mode := Mode.normal }, Cmd.none)
  | KeyType.backspace =>
    if 0 < m.filterText.length then
      (({ m with filterText := m.filterText.dropRight 1 }).applyFilter, Cmd.none)
    else (m, Cmd.none)
  | KeyType.runes =>
    (({ m with filterText := m.filterText ++ k.str }).applyFilter, Cmd.none)
  | KeyType.other => (m, Cmd.none)

/-- Model of handleConfirmKillKey. -/
def Model.handleConfirmKillKey (m : Model) (k : KeyMsg) : Model × Cmd :=
  if kmatches k confirmKeys then
    if 0 < m.filtered.length then
      ({ m with mode := Mode.normal },
       Cmd.kill (m.filtered.getD m.cursor.toNat default).pid)
    else ({ m with mode := Mode.normal }, Cmd.none)
  else if kmatches k cancelKeys then ({ m with mode := Mode.normal }, Cmd.none)
  else (m, Cmd.none)

/-- Model of handleLabelKey.  The delegated default branch is the external
text-input component editing its value. -/
def Model.handleLabelKey (m : Model) (k : KeyMsg) : Model × Cmd :=
  match k.type with
  | KeyType.esc => ({ m with mode := Mode.normal, labelFocused := false }, Cmd.none)
  | KeyType.enter =>
    if 0 < m.filtered.length then
      let s := m.filtered.getD m.cursor.toNat default
      let label := m.labelInput
      let cfg :=
        if label = "" then m.config.RemoveLabel s.port
        else m.config.SetLabel s.port label
      let filtered := m.filtered.set m.cursor.toNat { s with label := label }
      let servers := m.servers.map (fun srv =>
        if srv.port = s.port then { srv with label := label } else srv)
      ({ m with config := cfg, filtered := filtered, servers := servers,
                mode := Mode.normal, labelFocused := false },
       Cmd.saveConfig m.configPath cfg)
    else ({ m with mode := Mode.normal, labelFocused := false }, Cmd.none)
  | KeyType.backspace => ({ m with labelInput := m.labelInput.dropRight 1 }, Cmd.none)
  | KeyType.runes => ({ m with labelInput := (m.labelInput ++ k.str).take 30 }, Cmd.none)
  | KeyType.other => (m, Cmd.none)

/-- Model of handleHelpKey: any key exits. -/
def Model.handleHelpKey (m : Model) (_ : KeyMsg) : Model × Cmd :=
  ({ m with mode := Mode.normal }, Cmd.none)

/-- Model of handleKey, dispatching on the current mode. -/
def Model.handleKey (m : Model) (k : KeyMsg) : Model × Cmd :=
  match m.mode with
  | Mode.normal => m.handleNormalKey k
  | Mode.filter => m.handleFilterKey k
  | Mode.confirmKill => m.handleConfirmKillKey k
  | Mode.label => m.handleLabelKey k
  | Mode.help => m.handleHelpKey k

/-- Model of Update: the message switch of the event loop. -/
def Model.update (m : Model) (msg : Msg) : Model × Cmd :=
  match msg with
  | Msg.windowSize w h => ({ m with width := w, height := h }, Cmd.none)
  | Msg.scanResult servers err =>
    match err with
    | some e => ({ m with err := some e }, Cmd.none)
    | none =>
      ((({ m with err := none, servers := servers
          }).mergeLabels.filterHidden).applyFilter, Cmd.none)
  | Msg.tick => (m, Cmd.batch Cmd.scan (Cmd.tick m.config.refreshInterval))
  | Msg.killResult _ _ => (m, Cmd.scan)
  | Msg.labelSaved err =>
    match err with
    | some e => ({ m with err := some e }, Cmd.none)
    | none => (m, Cmd.none)
  | Msg.key k => m.handleKey k

/-- Run the event loop over a list of messages, keeping only the state. -/
def processAll (m : Model) (msgs : List Msg) : Model :=
  msgs.foldl (fun m msg => (m.update msg).1) m

/-! ## Claim-side twins for the reconciler passes -/

/-- Twin of the label-merge pass as the spec words it. -/
def labelMergeSpec (labels : List (Int × String)) (servers : List Server) :
    List Server :=
  servers.map (fun s =>
    match lookupLabel labels s.port with
    | some l => { s with label := l }
    | none => s)

/-- Twin of the hidden-filter pass: drop exactly the entities whose port
is a member of the hidden list, keeping order. -/
def hiddenFilterSpec (hidden : List Int) (servers : List Server) : List Server :=
  servers.filter (fun s => ! hidden.contains s.port)

/-- Twin of the per-entity text-filter condition the spec states. -/
def visibleSpec (ft : String) (s : Server) : Bool :=
  goContains (goToLower s.process) (goToLower ft) ||
  goContains (goToLower s.label) (goToLower ft) ||
  goContains (toString s.port) ft

/-- Twin of the text-filter pass: everything on an empty filter string,
otherwise the entities satisfying the visibility condition, in order. -/
def textFilterSpec (ft : String) (servers : List Server) : List Server :=
  if ft = "" then servers else servers.filter (visibleSpec ft)

/-- Cursor safety property of the claims: zero on an empty visible set,
otherwise inside the closed index interval. -/
def cursorInv (m : Model) : Prop :=
  (m.filtered.length = 0 → m.cursor = 0) ∧
  (0 < m.filtered.length → 0 ≤ m.cursor ∧ m.cursor < (m.filtered.length : Int))

/-- Server value a fresh scan produces for a bare port, used by the
concrete claim instances. -/
def plainServer (port : Int) : Server :=
  { port := port, pid := 0, process := "", command := "", state := "LISTEN",
    label := "", healthy := false }

/-! ## Shared lemmas -/

/-- Unrolling of an append-style filter loop into List.filter. -/
theorem foldl_append_filter {α : Type} (p : α → Bool) (l acc : List α) :
    l.foldl (fun acc x => if p x then acc ++ [x] else acc) acc =
      acc ++ l.filter p := by
  induction l generalizing acc with
  | nil => simp
  | cons x xs ih =>
    cases hp : p x <;> simp [hp, ih, List.filter_cons]

/-- Unrolling of an append-style parse loop into List.filterMap. -/
theorem foldl_appendIfSome (f : String → Option Server) (l : List String)
    (acc : List Server) :
    l.foldl (appendIfSome f) acc = acc ++ l.filterMap f := by
  induction l generalizing acc with
  | nil => simp
  | cons x xs ih =>
    cases hf : f x <;> simp [appendIfSome, hf, ih, List.filterMap_cons]

/-- Truth of the linear hidden-list scan is list membership. -/
theorem isHiddenList_eq_true_iff (l : List Int) (port : Int) :
    isHiddenList l port = true ↔ port ∈ l := by
  induction l with
  | nil => simp [isHiddenList]
  | cons a rest ih =>
    by_cases h : a = port
    · subst h
      simp [isHiddenList]
    · have h2 : ¬ port = a := fun hh => h hh.symm
      simp [isHiddenList, h, ih, List.mem_cons, h2]

/-- The linear hidden-list scan agrees with List.contains. -/
theorem isHiddenList_eq_contains (l : List Int) (port : Int) :
    isHiddenList l port = l.contains port := by
  rw [Bool.eq_iff_iff, isHiddenList_eq_true_iff]
  exact List.elem_iff.symm

/-- Any member of a toggled hidden list was a member before or is the
toggled port itself. -/
theorem mem_toggleHiddenList {l : List Int} {p x : Int}
    (h : x ∈ toggleHiddenList l p) : x ∈ l ∨ x = p := by
  induction l with
  | nil => simpa [toggleHiddenList] using h
  | cons a rest ih =>
    by_cases hap : a = p
    · subst hap
      simp only [toggleHiddenList, if_pos rfl] at h
      exact Or.inl (List.mem_cons_of_mem _ h)
    · simp only [toggleHiddenList, if_neg hap, List.mem_cons] at h
      rcases h with h | h
      · exact Or.inl (h ▸ List.mem_cons_self _ _)
      · rcases ih h with h2 | h2
        · exact Or.inl (List.mem_cons_of_mem _ h2)
        · exact Or.inr h2

/-- Toggling preserves freedom from duplicates. -/
theorem toggleHiddenList_nodup {l : List Int} {p : Int} (h : l.Nodup) :
    (toggleHiddenList l p).Nodup := by
  induction l with
  | nil => simp [toggleHiddenList]
  | cons a rest ih =>
    rcases List.nodup_cons.mp h with ⟨hna, hnd⟩
    by_cases hap : a = p
    · simpa [toggleHiddenList, hap] using hnd
    · rw [show toggleHiddenList (a :: rest) p = a :: toggleHiddenList rest p
        from by simp [toggleHiddenList, hap]]
      refine List.nodup_cons.mpr ⟨?_, ih hnd⟩
      intro hmem
      rcases mem_toggleHiddenList hmem with h2 | h2
      · exact hna h2
      · exact hap h2

/-- On a duplicate-free list, toggling a port flips its membership. -/
theorem isHiddenList_toggle_self {l : List Int} (p : Int) (h : l.Nodup) :
    isHiddenList (toggleHiddenList l p) p = ! isHiddenList l p := by
  induction l with
  | nil => simp [toggleHiddenList, isHiddenList]
  | cons a rest ih =>
    rcases List.nodup_cons.mp h with ⟨hna, hnd⟩
    by_cases hap : a = p
    · subst hap
      have hout : isHiddenList rest a = false := by
        rw [Bool.eq_false_iff]
        intro hc
        exact hna ((isHiddenList_eq_true_iff rest a).mp hc)
      simp [toggleHiddenList, isHiddenList, hout]
    · simp [toggleHiddenList, hap, isHiddenList, ih hnd]

/-- Toggling one port never changes the membership of another. -/
theorem isHiddenList_toggle_other {l : List Int} {p q : Int} (hqp : q ≠ p) :
    isHiddenList (toggleHiddenList l p) q = isHiddenList l q := by
  have hpq : ¬ p = q := fun h => hqp h.symm
  induction l with
  | nil => simp [toggleHiddenList, isHiddenList, hpq]
  | cons a rest ih =>
    by_cases hap : a = p
    · subst hap
      simp [toggleHiddenList, isHiddenList, hpq]
    · simp [toggleHiddenList, hap, isHiddenList, ih]

/-- Pointwise agreement of the Scan keep decision with the keep predicate
of the amended range-filter claim. -/
theorem scanKeep_eq_rangeSpecKeep (pr : PortRange) (port : Int) :
    scanKeep pr port = rangeSpecKeep pr port := by
  unfold scanKeep rangeSpecKeep
  rw [Bool.eq_iff_iff]
  by_cases h1 : pr.min = 0 <;> by_cases h2 : pr.max = 0 <;>
    simp [h1, h2]

/-- Unrolling of a skip-style filter loop into List.filter of the negated
predicate. -/
theorem foldl_skip_filter {α : Type} (p : α → Bool) (l acc : List α) :
    l.foldl (fun acc x => if p x then acc else acc ++ [x]) acc =
      acc ++ l.filter (fun x => ! p x) := by
  induction l generalizing acc with
  | nil => simp
  | cons x xs ih =>
    cases hp : p x <;> simp [hp, ih, List.filter_cons]

/-- Visible set applyFilter computes, expressed through the text-filter
pass the spec words describe. -/
theorem applyFilter_filtered (m : Model) :
    (m.applyFilter).filtered = textFilterSpec m.filterText m.servers := by
  unfold Model.applyFilter textFilterSpec
  by_cases hft : m.filterText = ""
  · simp [hft]
  · have hvis : visibleMatch m.filterText = visibleSpec m.filterText := by
      funext s
      simp [visibleMatch, visibleSpec]
    simp only [hft, if_neg, ite_false]
    rw [foldl_append_filter (visibleMatch m.filterText) m.servers [], hvis]
    simp

/-- Held server set after the hidden filter, expressed through the pass
the spec words describe. -/
theorem filterHidden_servers (m : Model) :
    (m.filterHidden).servers = hiddenFilterSpec m.config.hidden m.servers := by
  show m.servers.foldl _ [] = _
  rw [foldl_skip_filter (fun s => m.config.IsHidden s.port) m.servers []]
  simp [hiddenFilterSpec, Config.IsHidden, isHiddenList_eq_contains]

/-! ## Claim C10: ToggleHidden flips exactly one membership -/

/-- Claim C10: on a configuration whose hidden list has no duplicates,
ToggleHidden of a port flips IsHidden of that port, leaves IsHidden of
every other port unchanged, and applied twice restores the original
hidden-membership for every port. -/
theorem c10_toggleHidden (c : Config) (p : Int) (hnd : c.hidden.Nodup) :
    ((c.ToggleHidden p).IsHidden p = ! c.IsHidden p) ∧
    (∀ q, q ≠ p → (c.ToggleHidden p).IsHidden q = c.IsHidden q) ∧
    (∀ q, ((c.ToggleHidden p).ToggleHidden p).IsHidden q = c.IsHidden q) := by
  refine ⟨?_, ?_, ?_⟩
  · exact isHiddenList_toggle_self p hnd
  · intro q hq
    exact isHiddenList_toggle_other hq
  · intro q
    by_cases hq : q = p
    · subst hq
      show isHiddenList (toggleHiddenList (toggleHiddenList c.hidden q) q) q = _
      rw [isHiddenList_toggle_self q (toggleHiddenList_nodup hnd),
        isHiddenList_toggle_self q hnd, Bool.not_not]
      rfl
    · exact (isHiddenList_toggle_other hq).trans (isHiddenList_toggle_other hq)

/-- Configuration used to instantiate the C10 theorem. -/
def c10Config : Config :=
  { refreshInterval := 3, portRange := { min := 1024, max := 65535 },
    labels := [], hidden := [22, 443] }

/-- Witness for claim C10 at hidden list [22, 443] and port 443. -/
theorem c10_toggleHidden_witness :
    ((c10Config.ToggleHidden 443).IsHidden 443 = ! c10Config.IsHidden 443) ∧
    ((c10Config.ToggleHidden 443).IsHidden 22 = c10Config.IsHidden 22) ∧
    (((c10Config.ToggleHidden 443).ToggleHidden 443).IsHidden 443 =
      c10Config.IsHidden 443) := by
  have h := c10_toggleHidden c10Config 443 (by decide)
  exact ⟨h.1, h.2.1 22 (by decide), h.2.2 443⟩

/-! ## Claim C8: CheckHealth is an index-aligned frame -/

/-- Equality of two servers on every field except healthy. -/
def sameExceptHealthy (a b : Server) : Prop :=
  a.port = b.port ∧ a.pid = b.pid ∧ a.process = b.process ∧
  a.command = b.command ∧ a.state = b.state ∧ a.label = b.label

/-- Claim C8: for every server list and probe outcome, CheckHealth returns
a list of the same length whose entry at every index agrees with the input
entry at that index on every field except possibly healthy; the input,
being a value, is untouched. -/
theorem c8_checkHealth (servers : List Server) (probe : Int → Bool) :
    (CheckHealth servers probe).length = servers.length ∧
    ∀ i : Nat, sameExceptHealthy ((CheckHealth servers probe).getD i default)
      (servers.getD i default) := by
  refine ⟨by simp [CheckHealth], ?_⟩
  intro i
  induction servers generalizing i with
  | nil => simp [CheckHealth, sameExceptHealthy]
  | cons s rest ih =>
    cases i with
    | zero =>
      by_cases hp : probe s.port <;>
        simp [CheckHealth, hp, sameExceptHealthy]
    | succ n => simpa [CheckHealth] using ih n

/-! ## Claim C1: the Scan port-range filter -/

/-- Counterexample to claim C1 as stated.  With Min equal to 1024 and Max
equal to 0 the claim keeps every port of at least 1024, yet the filter
drops port 8080; with Min equal to 0 and Max equal to 100 the claim drops
only ports above 100, yet the filter drops port -5. -/
theorem c1_counterexample :
    scanRangeFilter { min := 1024, max := 0 } [plainServer 8080] = [] ∧
    ¬ ((8080 : Int) < 1024) ∧
    scanRangeFilter { min := 0, max := 100 } [plainServer (-5)] = [] ∧
    ¬ ((100 : Int) < (-5 : Int)) := by
  exact ⟨rfl, by decide, rfl, by decide⟩

/-- Amended claim C1: the filter keeps every port when both bounds are
zero, and otherwise keeps exactly the ports inside the closed interval
from Min to Max; in particular a zero Max with a nonzero Min empties the
result for positive ports rather than disabling the Max bound. -/
theorem c1_amended (pr : PortRange) (servers : List Server) :
    scanRangeFilter pr servers =
      servers.filter (fun s => rangeSpecKeep pr s.port) := by
  unfold scanRangeFilter
  rw [foldl_append_filter (fun s => scanKeep pr s.port) servers []]
  simp [scanKeep_eq_rangeSpecKeep]

/-! ## Claim C6: end-to-end reconciliation instance -/

/-- Configuration of the end-to-end claim instance. -/
def c6Config : Config :=
  { refreshInterval := 3, portRange := { min := 1024, max := 65535 },
    labels := [(8080, "web-api")], hidden := [22] }

/-- Claim C6: with labels mapping 8080 to web-api, hidden list [22] and an
empty text filter, processing a scan result of ports 8080, 22, 3000 yields
exactly the visible entities 8080 labelled web-api and 3000 unlabelled, in
that order, with port 22 removed and no other entity labelled. -/
theorem c6_endToEnd :
    (((Model.new c6Config "config.yaml").update
        (Msg.scanResult [plainServer 8080, plainServer 22, plainServer 3000]
          none)).1.filtered =
      [{ plainServer 8080 with label := "web-api" }, plainServer 3000]) ∧
    (((Model.new c6Config "config.yaml").update
        (Msg.scanResult [plainServer 8080, plainServer 22, plainServer 3000]
          none)).1.servers =
      [{ plainServer 8080 with label := "web-api" }, plainServer 3000]) := by
  exact ⟨rfl, rfl⟩

/-! ## Claim C7: the text filter -/

/-- Claim C7: for every model, the visible set applyFilter computes equals
the full held set when the filter string is empty, and otherwise the
order-preserving List.filter of the claimed visibility condition: the
filter string case-insensitively contained in the process name or in the
label, or case-sensitively contained in the decimal port text. -/
theorem c7_textFilter (m : Model) :
    (m.applyFilter).filtered =
      (if m.filterText = "" then m.servers
       else m.servers.filter (visibleSpec m.filterText)) := by
  rw [applyFilter_filtered]
  rfl

/-! ## Claim C3: scan-completion processing -/

/-- Amended claim C3: on a successful scan completion the held server set
becomes the label-merge and hidden-filter of the scanned entities, the
visible set becomes their text filter, the error field clears and the mode
is unchanged; on a failed scan completion only the error field changes (in
particular the passes are NOT run and the sets keep their stale values),
and the mode is again unchanged. -/
theorem c3_amended :
    (∀ (m : Model) (servers : List Server),
      ((m.update (Msg.scanResult servers none)).1.mode = m.mode) ∧
      ((m.update (Msg.scanResult servers none)).1.err = none) ∧
      ((m.update (Msg.scanResult servers none)).1.servers =
        hiddenFilterSpec m.config.hidden (labelMergeSpec m.config.labels servers)) ∧
      ((m.update (Msg.scanResult servers none)).1.filtered =
        textFilterSpec m.filterText
          (hiddenFilterSpec m.config.hidden
            (labelMergeSpec m.config.labels servers)))) ∧
    (∀ (m : Model) (servers : List Server) (e : String),
      ((m.update (Msg.scanResult servers (some e))).1 = { m with err := some e }) ∧
      ((m.update (Msg.scanResult servers (some e))).2 = Cmd.none)) := by
  constructor
  · intro m servers
    have hserv : ((({ m with err := none, servers := servers } :
        Model)).mergeLabels.filterHidden).servers =
        hiddenFilterSpec m.config.hidden (labelMergeSpec m.config.labels servers) := by
      rw [filterHidden_servers]
      rfl
    refine ⟨rfl, rfl, hserv, ?_⟩
    exact (applyFilter_filtered
      ((({ m with err := none, servers := servers } :
        Model)).mergeLabels.filterHidden)).trans (by rw [hserv]; rfl)
  · intro m servers e
    exact ⟨rfl, rfl⟩

/-- Configuration of the C3 counterexample, hiding port 22. -/
def c3Config : Config :=
  { refreshInterval := 3, portRange := { min := 1024, max := 65535 },
    labels := [], hidden := [22] }

/-- Stale model of the C3 counterexample, holding the hidden port 22. -/
def c3Model : Model :=
  { Model.new c3Config "config.yaml" with
    servers := [plainServer 22], filtered := [plainServer 22] }

/-- Counterexample to claim C3 as stated: a failed scan completion does
not update the held and visible sets.  If the label-merge, hidden-filter
and text-filter passes ran, the sets would become empty (port 22 is
hidden); instead both still hold port 22, and only the error field was
set. -/
theorem c3_counterexample :
    ((c3Model.update (Msg.scanResult [plainServer 22]
        (some "scan failed"))).1.servers = [plainServer 22]) ∧
    ((c3Model.update (Msg.scanResult [plainServer 22]
        (some "scan failed"))).1.filtered = [plainServer 22]) ∧
    (hiddenFilterSpec c3Model.config.hidden
      (labelMergeSpec c3Model.config.labels [plainServer 22]) = []) ∧
    ((c3Model.update (Msg.scanResult [plainServer 22]
        (some "scan failed"))).1.err = some "scan failed") := by
  exact ⟨rfl, rfl, rfl, rfl⟩

/-! ## Claim C2: label-mode enter -/

/-- Discriminator for the persist command. -/
def Cmd.isSave : Cmd → Bool
  | Cmd.saveConfig _ _ => true
  | _ => false

/-- Model of the C2 counterexample: label mode with an empty visible set,
reachable because a scan completion can empty the sets while the mode
stays Label. -/
def c2EmptyModel : Model :=
  { Model.new c3Config "config.yaml" with mode := Mode.label, labelInput := "x" }

/-- Counterexample to claim C2 as stated: in Label mode with an empty
visible set, pressing enter returns to Normal but emits no command at all,
so no async persist of the configuration is triggered. -/
theorem c2_counterexample :
    (c2EmptyModel.mode = Mode.label) ∧
    ((c2EmptyModel.update (Msg.key enterKey)).2 = Cmd.none) ∧
    (Cmd.isSave (c2EmptyModel.update (Msg.key enterKey)).2 = false) ∧
    ((c2EmptyModel.update (Msg.key enterKey)).1.mode = Mode.normal) := by
  exact ⟨rfl, rfl, rfl, rfl⟩

/-- Amended claim C2: in Label mode, pressing enter always returns the
mode to Normal; when the visible set is nonempty it removes the stored
label for the selected port if the input text is empty and sets it to the
text otherwise, updates the in-memory label on the matching entity in both
the full and visible sets, and triggers the async persist; when the
visible set is empty it changes nothing else and triggers no persist. -/
theorem c2_amended (m : Model) (hm : m.mode = Mode.label) :
    ((m.update (Msg.key enterKey)).1.mode = Mode.normal) ∧
    (if m.filtered.length = 0 then
      ((m.update (Msg.key enterKey)).1 =
        { m with mode := Mode.normal, labelFocused := false }) ∧
      ((m.update (Msg.key enterKey)).2 = Cmd.none)
    else
      ((m.update (Msg.key enterKey)).1.config =
        (if m.labelInput = "" then
          m.config.RemoveLabel (m.filtered.getD m.cursor.toNat default).port
        else
          m.config.SetLabel (m.filtered.getD m.cursor.toNat default).port
            m.labelInput)) ∧
      ((m.update (Msg.key enterKey)).2 =
        Cmd.saveConfig m.configPath ((m.update (Msg.key enterKey)).1.config)) ∧
      ((m.update (Msg.key enterKey)).1.filtered =
        m.filtered.set m.cursor.toNat
          { m.filtered.getD m.cursor.toNat default with label := m.labelInput }) ∧
      ((m.update (Msg.key enterKey)).1.servers =
        m.servers.map (fun srv =>
          if srv.port = (m.filtered.getD m.cursor.toNat default).port then
            { srv with label := m.labelInput }
          else srv))) := by
  have hroute : m.update (Msg.key enterKey) = m.handleLabelKey enterKey := by
    simp [Model.update, Model.handleKey, hm]
  rw [hroute]
  by_cases h0 : m.filtered.length = 0
  · have hnpos : ¬ 0 < m.filtered.length := by omega
    rw [if_pos h0]
    unfold Model.handleLabelKey
    simp [enterKey, hnpos]
  · have hpos : 0 < m.filtered.length := Nat.pos_of_ne_zero h0
    rw [if_neg h0]
    unfold Model.handleLabelKey
    simp [enterKey, hpos]

/-- Model instantiating the amended C2 theorem with one visible entity. -/
def c2Model : Model :=
  { Model.new c3Config "config.yaml" with
    mode := Mode.label, servers := [plainServer 3000],
    filtered := [plainServer 3000], labelInput := "api" }

/-- Witness for the amended claim C2 at a concrete Label-mode model. -/
theorem c2_amended_witness :
    ((c2Model.update (Msg.key enterKey)).1.mode = Mode.normal) ∧
    ((c2Model.update (Msg.key enterKey)).2 =
      Cmd.saveConfig c2Model.configPath
        ((c2Model.update (Msg.key enterKey)).1.config)) := by
  have h := c2_amended c2Model rfl
  refine ⟨h.1, ?_⟩
  have h2 := h.2
  rw [if_neg (by decide : ¬ c2Model.filtered.length = 0)] at h2
  exact h2.2.1

/-! ## Claim C4: the process-listing parser -/

/-- Line contract of the process-listing parser: the source translation
with its sequential guards agrees with the declarative condition of the
spec on every line. -/
theorem lsofLine_eq_spec (line : String) : lsofLine line = lsofSpecLine line := by
  unfold lsofLine lsofSpecLine
  cases goAtoi ((goFields line).getD 1 "") with
  | none =>
    by_cases h10 : (goFields line).length < 10 <;> simp [h10]
  | some pid =>
    cases lastColonSuffix
        ((goFields line).getD ((goFields line).length - 2) "") with
    | none =>
      by_cases h10 : (goFields line).length < 10 <;>
        simp [h10, Option.none_bind, ite_self]
    | some portStr =>
      simp only [Option.some_bind]
      cases goAtoi portStr with
      | none =>
        by_cases h10 : (goFields line).length < 10 <;>
          simp [h10, ite_self]
      | some port =>
        by_cases h10 : (goFields line).length < 10
        · have hn : ¬ (goFields line).length ≥ 10 := by omega
          simp [h10, hn]
        · have h10g : (goFields line).length ≥ 10 := by omega
          by_cases hl : (goFields line).getLastD "" = "(LISTEN)" <;>
            simp [h10, hl, h10g]

/-- Header line of the lsof listing used for the no-result instances. -/
def lsofHeader : String :=
  "COMMAND   PID USER   FD   TYPE DEVICE SIZE/OFF NODE NAME"

/-- Claim C4: the process-listing parser produces one LISTEN Server, with
the first field as process name, the second as PID and the last-colon
suffix of the second-to-last field as port, exactly for the non-header
lines passing the field-count, PID-parse, marker and port-parse checks,
and returns no result at all on empty, header-only or zero-match input. -/
theorem c4_parseLsofOutput :
    (∀ output, parseLsofOutput output = lsofSpec output) ∧
    parseLsofOutput "" = none ∧
    parseLsofOutput lsofHeader = none := by
  refine ⟨?_, rfl, rfl⟩
  intro output
  have hfun : lsofLine = lsofSpecLine := funext lsofLine_eq_spec
  unfold parseLsofOutput lsofSpec
  by_cases ht : goTrimSpace output = ""
  · rw [if_pos ht, ht]
    rfl
  · rw [if_neg ht]
    by_cases hlen : (goSplitOnChar '\n' (goTrimSpace output)).length ≤ 1
    · rw [if_pos hlen, List.drop_eq_nil_of_le hlen]
      rfl
    · rw [if_neg hlen, hfun,
        foldl_appendIfSome lsofSpecLine ((goSplitOnChar '\n' (goTrimSpace output)).drop 1) []]
      by_cases hz :
          ((goSplitOnChar '\n' (goTrimSpace output)).drop 1).filterMap lsofSpecLine = [] <;>
        simp [hz, List.length_eq_zero]

/-! ## Claim C5: the kernel-table parser -/

/-- Record contract of the kernel-table parser: the source translation
with its sequential guards agrees with the declarative condition of the
spec on every record. -/
theorem procNetLine_eq_spec (line : String) :
    procNetLine line = procNetSpecLine line := by
  unfold procNetLine procNetSpecLine
  cases goSplitOnChar ':' ((goFields line).getD 1 "") with
  | nil =>
    by_cases h4 : (goFields line).length < 4 <;>
      by_cases hst : (goFields line).getD 3 "" = "0A" <;>
        simp [h4, hst, ite_self]
  | cons a tail =>
    cases tail with
    | nil =>
      by_cases h4 : (goFields line).length < 4 <;>
        by_cases hst : (goFields line).getD 3 "" = "0A" <;>
          simp [h4, hst, ite_self]
    | cons b tail2 =>
      cases tail2 with
      | nil =>
        cases hport : goParseInt b 16 with
        | none =>
          by_cases h4 : (goFields line).length < 4 <;>
            by_cases hst : (goFields line).getD 3 "" = "0A" <;>
              simp [h4, hst, hport, ite_self]
        | some port =>
          by_cases h4 : (goFields line).length < 4
          · have hn : ¬ (goFields line).length ≥ 4 := by omega
            by_cases hst : (goFields line).getD 3 "" = "0A" <;>
              simp [h4, hst, hport, hn]
          · have h4g : (goFields line).length ≥ 4 := by omega
            by_cases hst : (goFields line).getD 3 "" = "0A" <;>
              simp [h4, hst, hport, h4g]
      | cons c tail3 =>
        by_cases h4 : (goFields line).length < 4 <;>
          by_cases hst : (goFields line).getD 3 "" = "0A" <;>
            simp [h4, hst, ite_self]

/-- Header line of the kernel connection table. -/
def procNetHeader : String :=
  "  sl  local_address rem_address   st tx_queue rx_queue tr tm->when retrnsmt   uid  timeout inode"

/-- Claim C5: the kernel-table parser produces an entity exactly for each
non-header record with at least 4 fields whose field 3 is 0A, the port
being the base-16 parse of the text after the colon of field 1, populating
only port and state, skipping malformed records silently, and yielding no
result on empty or header-only input; hex 1F90 is port 8080 and 0050 is
port 80. -/
theorem c5_parseProcNetTCP :
    (∀ content, parseProcNetTCP content = procNetSpec content) ∧
    goParseInt "1F90" 16 = some 8080 ∧
    goParseInt "0050" 16 = some 80 ∧
    parseProcNetTCP "" = none ∧
    parseProcNetTCP procNetHeader = none := by
  refine ⟨?_, rfl, rfl, rfl, rfl⟩
  intro content
  have hfun : procNetLine = procNetSpecLine := funext procNetLine_eq_spec
  unfold parseProcNetTCP procNetSpec
  by_cases hlen : (goSplitOnChar '\n' (goTrimSpace content)).length ≤ 1
  · rw [if_pos hlen, List.drop_eq_nil_of_le hlen]
    rfl
  · rw [if_neg hlen, hfun,
      foldl_appendIfSome procNetSpecLine
        ((goSplitOnChar '\n' (goTrimSpace content)).drop 1) []]
    by_cases hz :
        ((goSplitOnChar '\n' (goTrimSpace content)).drop 1).filterMap procNetSpecLine = [] <;>
      simp [hz, List.length_eq_zero]

/-! ## Claim C9: the cursor invariant of the state machine -/

/-- Lower bound on the cursor the invariant always yields. -/
theorem cursorInv_nonneg {m : Model} (h : cursorInv m) : 0 ≤ m.cursor := by
  rcases h with ⟨h0, hpos⟩
  rcases Nat.eq_zero_or_pos m.filtered.length with hz | hp
  · rw [h0 hz]
  · exact (hpos hp).1

/-- Cursor applyFilter computes, as a clamp of the previous cursor against
the new visible length. -/
theorem applyFilter_cursorDef (m : Model) :
    (m.applyFilter).cursor =
      (if (m.applyFilter).filtered.length = 0 then 0
       else if ((m.applyFilter).filtered.length : Int) ≤ m.cursor then
         ((m.applyFilter).filtered.length : Int) - 1
       else m.cursor) := rfl

/-- Clamping in applyFilter establishes the cursor invariant from mere
nonnegativity of the previous cursor. -/
theorem applyFilter_cursorInv (m : Model) (h : 0 ≤ m.cursor) :
    cursorInv m.applyFilter := by
  unfold cursorInv
  rw [applyFilter_cursorDef]
  by_cases hz : (m.applyFilter).filtered.length = 0
  · rw [if_pos hz]
    constructor
    · intro _
      rfl
    · intro hp
      omega
  · rw [if_neg hz]
    constructor
    · intro h0
      exact absurd h0 hz
    · intro hp
      by_cases hc : ((m.applyFilter).filtered.length : Int) ≤ m.cursor
      · rw [if_pos hc]
        omega
      · rw [if_neg hc]
        omega

/-- Transfer of the cursor invariant between models agreeing on the
visible set and the cursor. -/
theorem cursorInv_congr {m2 : Model} (m : Model) (h : cursorInv m)
    (hf : m2.filtered = m.filtered) (hc : m2.cursor = m.cursor) :
    cursorInv m2 := by
  unfold cursorInv at h ⊢
  rw [hf, hc]
  exact h

/-- Normal-mode keys preserve the cursor invariant: quit, mode switches
and effect triggers keep the cursor, and down and up clamp it. -/
theorem handleNormalKey_cursorInv (m : Model) (k : KeyMsg) (h : cursorInv m) :
    cursorInv (m.handleNormalKey k).1 := by
  unfold Model.handleNormalKey
  repeat' split
  all_goals try exact h
  all_goals
    unfold cursorInv at h ⊢
  all_goals
    simp only [] at h ⊢
  all_goals omega

/-- Filter-mode keys preserve the cursor invariant: escape and enter keep
the cursor, and editing reapplies the clamping filter. -/
theorem handleFilterKey_cursorInv (m : Model) (k : KeyMsg) (h : cursorInv m) :
    cursorInv (m.handleFilterKey k).1 := by
  have hc : 0 ≤ m.cursor := cursorInv_nonneg h
  unfold Model.handleFilterKey
  cases k.type <;> dsimp only
  case esc => exact h
  case enter => exact h
  case backspace =>
    split
    · exact applyFilter_cursorInv _ hc
    · exact h
  case runes => exact applyFilter_cursorInv _ hc
  case other => exact h

/-- Confirm-kill keys preserve the cursor invariant: only the mode changes
and at most a kill command is emitted. -/
theorem handleConfirmKillKey_cursorInv (m : Model) (k : KeyMsg)
    (h : cursorInv m) : cursorInv (m.handleConfirmKillKey k).1 := by
  unfold Model.handleConfirmKillKey
  repeat' split
  all_goals exact h

/-- Label-mode keys preserve the cursor invariant: enter rewrites one
visible entry in place, preserving the length, and the rest touch only the
mode or the input text. -/
theorem handleLabelKey_cursorInv (m : Model) (k : KeyMsg) (h : cursorInv m) :
    cursorInv (m.handleLabelKey k).1 := by
  unfold Model.handleLabelKey
  cases k.type <;> dsimp only
  case esc => exact cursorInv_congr m h rfl rfl
  case enter =>
    split
    · unfold cursorInv at h ⊢
      simp only [List.length_set] at h ⊢
      omega
    · exact cursorInv_congr m h rfl rfl
  case backspace => exact cursorInv_congr m h rfl rfl
  case runes => exact cursorInv_congr m h rfl rfl
  case other => exact h

/-- Every key event preserves the cursor invariant. -/
theorem handleKey_cursorInv (m : Model) (k : KeyMsg) (h : cursorInv m) :
    cursorInv (m.handleKey k).1 := by
  unfold Model.handleKey
  cases hm : m.mode
  · exact handleNormalKey_cursorInv m k h
  · exact handleFilterKey_cursorInv m k h
  · exact handleLabelKey_cursorInv m k h
  · exact handleConfirmKillKey_cursorInv m k h
  · exact h

/-- Every message preserves the cursor invariant. -/
theorem update_cursorInv (m : Model) (msg : Msg) (h : cursorInv m) :
    cursorInv (m.update msg).1 := by
  cases msg with
  | windowSize w hh => exact h
  | scanResult servers err =>
    cases err with
    | some e => exact h
    | none => exact applyFilter_cursorInv _ (cursorInv_nonneg h)
  | tick => exact h
  | killResult p e => exact h
  | labelSaved e =>
    cases e with
    | some e2 => exact h
    | none => exact h
  | key k => exact handleKey_cursorInv m k h

/-- The cursor invariant is preserved along any message sequence. -/
theorem processAll_cursorInv (msgs : List Msg) (m : Model) (h : cursorInv m) :
    cursorInv (processAll m msgs) := by
  induction msgs generalizing m with
  | nil => exact h
  | cons x xs ih => exact ih _ (update_cursorInv m x h)

/-- Claim C9: starting from the initial model, after any sequence of key,
scan-result, tick, kill-result, persist-result and window-size messages,
the cursor is 0 whenever the visible set is empty and otherwise lies
between 0 and the last visible index; in particular it is never negative
and never at least the visible length. -/
theorem c9_cursorClamped (cfg : Config) (cfgPath : String) (msgs : List Msg) :
    cursorInv (processAll (Model.new cfg cfgPath) msgs) := by
  refine processAll_cursorInv msgs _ ?_
  constructor
  · intro _
    rfl
  · intro hp
    exact absurd hp (by simp [Model.new])

end Portview
